import Mathlib

/-!
Verification of the ads-params-cli data-loading tool (src/src/main.rs).

The tool reads a local file and publishes `key=value` records into a
key-value store (Redis hashes).  We embed the write path shallowly:

* a line / the file content is a Lean `String`;
* each store write the program issues (`hset`, `hset_multiple`) becomes a
  `WriteEvent` appended to a trace, and the claims' standing assumption that
  file reads and store operations succeed means a write never fails here;
* each `handle_*` function becomes a pure function from the file's lines (or
  whole content) to the pair (write trace, final `Outcome`).

All definitions are executable so that concrete runs evaluate by `decide`
or `rfl`.
-/

/-- The four fixed Redis map-name constants of the source (`main.rs`). -/
def REDIS_CFG_KEY_EXP_EXP_AB_PARAMS : String := "cfg:exp:ab"

def REDIS_KEY_EXP_ADID_DEFALUT_CHOICE : String := "exp:default:adid:choices"

def REDIS_CFG_KEY_EXP_TARGET_CTR_ACTION : String := "cfg:exp:action:targetctr:default"

def REDIS_CFG_KEY_EXP_VERSION_AD_ID_SCORES : String := "expversion:score:default"

/-- Rust's `str::split(pat)` for a `char` pattern, on the character list of
the string: it always yields at least one piece, an empty input yields one
empty piece, and each occurrence of the pattern starts a new piece.
`List.headI`/`List.tail` decompose the recursive result, which is never
empty (`splitCh_ne_nil`). -/
def splitCh (p : Char) : List Char → List (List Char)
  | [] => [[]]
  | c :: cs =>
    if c = p then [] :: splitCh p cs
    else (c :: (splitCh p cs).headI) :: (splitCh p cs).tail

/-- Joining the pieces back with the delimiter; inverse of `splitCh`. -/
def joinCh (p : Char) : List (List Char) → List Char
  | [] => []
  | [s] => s
  | s :: ss => s ++ p :: joinCh p ss

theorem splitCh_ne_nil (p : Char) (l : List Char) : splitCh p l ≠ [] := by
  cases l with
  | nil => simp [splitCh]
  | cons c cs =>
    by_cases h : c = p <;> simp [splitCh, h]

theorem splitCh_length (p : Char) (l : List Char) :
    (splitCh p l).length = l.count p + 1 := by
  induction l with
  | nil => simp [splitCh]
  | cons c cs ih =>
    rcases hs : splitCh p cs with _ | ⟨s, ss⟩
    · exact absurd hs (splitCh_ne_nil p cs)
    · rw [hs] at ih
      by_cases h : c = p
      · simp only [splitCh, h, if_pos rfl, List.length_cons, List.count_cons]
        simp [hs, ih, h]
      · simp only [splitCh, h, if_neg h, hs, List.headI, List.tail,
          List.length_cons, List.count_cons]
        simp only [List.length_cons] at ih
        have : ¬ (c == p) = true := by simpa using h
        simp [this, ih]

theorem splitCh_not_mem (p : Char) (l : List Char) :
    ∀ s ∈ splitCh p l, p ∉ s := by
  induction l with
  | nil => simp [splitCh]
  | cons c cs ih =>
    rcases hs : splitCh p cs with _ | ⟨s, ss⟩
    · exact absurd hs (splitCh_ne_nil p cs)
    · rw [hs] at ih
      by_cases h : c = p
      · simp only [splitCh, if_pos h]
        intro x hx
        rw [List.mem_cons] at hx
        rcases hx with hx | hx
        · simp [hx]
        · exact ih x (hs ▸ hx)
      · simp only [splitCh, if_neg h, hs, List.headI, List.tail]
        intro x hx
        rw [List.mem_cons] at hx
        rcases hx with hx | hx
        · subst hx
          intro hmem
          rw [List.mem_cons] at hmem
          rcases hmem with hmem | hmem
          · exact h hmem.symm
          · exact ih s (List.mem_cons_self s ss) hmem
        · exact ih x (List.mem_cons_of_mem s hx)

theorem joinCh_splitCh (p : Char) (l : List Char) :
    joinCh p (splitCh p l) = l := by
  induction l with
  | nil => simp [splitCh, joinCh]
  | cons c cs ih =>
    rcases hs : splitCh p cs with _ | ⟨s, ss⟩
    · exact absurd hs (splitCh_ne_nil p cs)
    · rw [hs] at ih
      by_cases h : c = p
      · cases ss with
        | nil => simp [splitCh, if_pos h, hs, joinCh, joinCh] at ih ⊢; simp [h, ih]
        | cons s2 ss2 => simp [splitCh, if_pos h, hs, joinCh] at ih ⊢; simp [h, ih]
      · cases ss with
        | nil =>
          simp only [joinCh] at ih
          simp [splitCh, if_neg h, hs, List.headI, List.tail, joinCh, ih]
        | cons s2 ss2 =>
          simp only [joinCh] at ih
          simp [splitCh, if_neg h, hs, List.headI, List.tail, joinCh, ih]

/-- `tuple2_from_split` of `main.rs`: split `value` on the character `pat`;
the first `split.next()` is the head piece (it always exists), the second
`split.next()` must exist, and a third piece is an error.  So the call
succeeds exactly when the split has exactly two pieces. -/
def tuple2_from_split (value : String) (pat : Char) (msg : String) :
    Except String (String × String) :=
  match splitCh pat value.data with
  | [] => .error msg
  | [_] => .error msg
  | [v1, v2] => .ok (String.mk v1, String.mk v2)
  | _ :: _ :: _ :: _ => .error msg

example : tuple2_from_split "a=b" '=' "bad line" = .ok ("a", "b") := by rfl
example : tuple2_from_split "ab" '=' "bad line" = .error "bad line" := by rfl
example : tuple2_from_split "a=b=c" '=' "bad line" = .error "bad line" := by rfl
example : tuple2_from_split "=" '=' "bad line" = .ok ("", "") := by rfl

/-- C1: splitting on `'='`, a string with exactly one occurrence of `'='`
parses to the pair of substrings around that occurrence, and a string with
zero or at least two occurrences fails with the malformed-record error. -/
theorem tuple2_from_split_spec (s msg : String) :
    (s.data.count '=' = 1 →
      ∃ a b : List Char,
        tuple2_from_split s '=' msg = .ok (String.mk a, String.mk b) ∧
        s.data = a ++ '=' :: b ∧ '=' ∉ a ∧ '=' ∉ b) ∧
    (s.data.count '=' ≠ 1 → tuple2_from_split s '=' msg = .error msg) := by
  constructor
  · intro h1
    have hlen : (splitCh '=' s.data).length = 2 := by
      rw [splitCh_length, h1]
    rcases hL : splitCh '=' s.data with _ | ⟨a, _ | ⟨b, _ | _⟩⟩ <;>
      rw [hL] at hlen <;> simp at hlen
    refine ⟨a, b, ?_, ?_, ?_, ?_⟩
    · simp [tuple2_from_split, hL]
    · have := joinCh_splitCh '=' s.data
      rw [hL] at this
      simpa [joinCh] using this.symm
    · exact splitCh_not_mem '=' s.data a (hL ▸ List.mem_cons_self a [b])
    · exact splitCh_not_mem '=' s.data b
        (hL ▸ List.mem_cons_of_mem a (List.mem_cons_self b []))
  · intro h1
    have hlen : (splitCh '=' s.data).length ≠ 2 := by
      rw [splitCh_length]; omega
    rcases hL : splitCh '=' s.data with _ | ⟨a, _ | ⟨b, _ | _⟩⟩
    · exact absurd hL (splitCh_ne_nil '=' s.data)
    · simp [tuple2_from_split, hL]
    · rw [hL] at hlen; simp at hlen
    · simp [tuple2_from_split, hL]

/-- C1 witness: a string with exactly one `'='` splits into the surrounding
substrings. -/
theorem tuple2_from_split_spec_witness :
    ∃ a b : List Char,
      tuple2_from_split "abc=de" '=' "bad line" = .ok (String.mk a, String.mk b) ∧
      ("abc=de" : String).data = a ++ '=' :: b ∧ '=' ∉ a ∧ '=' ∉ b :=
  (tuple2_from_split_spec "abc=de" "bad line").1 (by decide)

/-- The `--type` enumeration of the `ab-params` subcommand (`AbType` in
`main.rs`). -/
inductive AbType
  | Fill
  | Show
  | Click
deriving DecidableEq

/-- The `Display` impl of `AbType`: the lowercased `Debug` name. -/
def AbType.display : AbType → String
  | .Fill => "fill"
  | .Show => "show"
  | .Click => "click"

/-- The `--type` enumeration of the `range-signal` subcommand (`SignalType`
in `main.rs`). -/
inductive SignalType
  | TemptClick
  | FillRate
  | ShowRate
  | ClickRate
deriving DecidableEq

/-- One store write issued by the program: `hset` is a single-field write
(`Commands::hset`), `hsetMultiple` a bulk multi-field write
(`Commands::hset_multiple`) carrying its ordered entry list. -/
inductive WriteEvent
  | hset (map field value : String)
  | hsetMultiple (map : String) (items : List (String × String))
deriving DecidableEq

/-- How a handler run ends: `ok` models `Ok(())`, `err` an `anyhow` error
returned with `?`, `panicked` a panic such as the `todo!()` stub. -/
inductive Outcome
  | ok
  | err (msg : String)
  | panicked (msg : String)
deriving DecidableEq

/-- Consume leading JSON whitespace. -/
def skipWs : List Char → List Char
  | [] => []
  | c :: cs => if c = ' ' ∨ c = '\t' ∨ c = '\n' ∨ c = '\r' then skipWs cs else c :: cs

/-- Take the leading run of ASCII digits. -/
def takeDigits : List Char → List Char × List Char
  | [] => ([], [])
  | c :: cs =>
    if c.isDigit then
      ((c :: (takeDigits cs).1), (takeDigits cs).2)
    else ([], c :: cs)

/-- The fraction part of a JSON number: either absent, or `'.'` followed by
at least one digit; returns the token extended with the consumed characters. -/
def jsonFracPart (tok : List Char) (cs : List Char) :
    Option (List Char × List Char) :=
  match cs with
  | '.' :: r =>
    match takeDigits r with
    | ([], _) => none
    | (ds, r2) => some (tok ++ '.' :: ds, r2)
  | _ => some (tok, cs)

/-- The exponent part of a JSON number: either absent, or `e`/`E`, an
optional sign, and at least one digit. -/
def jsonExpPart (tok : List Char) (cs : List Char) :
    Option (List Char × List Char) :=
  match cs with
  | c :: r =>
    if c = 'e' ∨ c = 'E' then
      match r with
      | s :: r2 =>
        if s = '+' ∨ s = '-' then
          match takeDigits r2 with
          | ([], _) => none
          | (ds, r3) => some (tok ++ c :: s :: ds, r3)
        else
          match takeDigits r with
          | ([], _) => none
          | (ds, r3) => some (tok ++ c :: ds, r3)
      | [] => none
    else some (tok, cs)
  | [] => some (tok, cs)

/-- Parse one JSON number token (sign, integer part, optional fraction and
exponent), returning the token's characters and the remaining input.  JSON
forbids leading zeros: the integer part is `0` or starts with `1`-`9`. -/
def parseJsonNumber (cs : List Char) : Option (List Char × List Char) :=
  let (sign, cs1) : List Char × List Char :=
    match cs with
    | '-' :: r => (['-'], r)
    | _ => ([], cs)
  match cs1 with
  | [] => none
  | c :: r =>
    if c = '0' then
      match jsonFracPart (sign ++ ['0']) r with
      | none => none
      | some (t2, r2) => jsonExpPart t2 r2
    else if c.isDigit then
      match takeDigits r with
      | (ds, r1) =>
        match jsonFracPart (sign ++ c :: ds) r1 with
        | none => none
        | some (t2, r2) => jsonExpPart t2 r2
    else none

/-- Parse a non-empty comma-separated list of JSON numbers (whitespace
allowed around separators), fuelled by the input length; each parsed number
is kept as its literal token string. -/
def parseNumList : Nat → List Char → Option (List String × List Char)
  | 0, _ => none
  | fuel + 1, cs =>
    match parseJsonNumber cs with
    | none => none
    | some (tok, r1) =>
      match skipWs r1 with
      | ',' :: r2 =>
        match parseNumList fuel (skipWs r2) with
        | none => none
        | some (toks, r3) => some (String.mk tok :: toks, r3)
      | r2 => some ([String.mk tok], r2)

/-- Model of `serde_json::from_str::<Vec<f32>>` on the raw value string: the
string must be a JSON array of numbers (and nothing else, up to surrounding
whitespace).  Each element is kept as its literal number token.  The f32
round-trip — serde_json's float parse (by default a chain of IEEE-754 f64
operations plus an `as f32` cast) followed by Rust's shortest-round-trip
`Display` — is bit-level floating point and is not modelled; the token
coincides with the program's written string only for canonical tokens such
as the decimal literals the concrete claims use (`0.1`, `1`, ...), not for
e.g. `1.50` (which the program writes back as `1.5`). -/
def decodeF32Array (v : String) : Option (List String) :=
  match skipWs v.data with
  | '[' :: r =>
    match skipWs r with
    | ']' :: r2 => if (skipWs r2).isEmpty then some [] else none
    | r1 =>
      match parseNumList (r1.length + 1) r1 with
      | none => none
      | some (toks, rest) =>
        match rest with
        | ']' :: r2 => if (skipWs r2).isEmpty then some toks else none
        | _ => none
  | _ => none

example : decodeF32Array "[0.1,0.2,0.3]" = some ["0.1", "0.2", "0.3"] := by rfl
example : decodeF32Array "[]" = some [] := by rfl
example : decodeF32Array " [ 1 , -2.5e3 ] " = some ["1", "-2.5e3"] := by rfl
example : decodeF32Array "{1.0,2.0}" = none := by rfl
example : decodeF32Array "[1.]" = none := by rfl
example : decodeF32Array "[01]" = none := by rfl

/-- The entry list built by the `for (action_id, val) in values.iter().enumerate()`
loops: `(format!("\x7b\x7d", action_id), format!("\x7b\x7d", val))` for each
position, counting from `i`. -/
def enumItems : Nat → List String → List (String × String)
  | _, [] => []
  | i, v :: vs => (toString i, v) :: enumItems (i + 1) vs

/-- `handle_ab_params` of `main.rs` on the file's lines: per line, parse
`key=value`; when the parse succeeds (`kv.is_ok()`), immediately `hset` the
field `"<key>:<type>"` to the value in the fixed AB-params map; when it
fails, fall through to the next line.  The loop never aborts on a parse
failure. -/
def handle_ab_params (t : AbType) : List String → List WriteEvent × Outcome
  | [] => ([], .ok)
  | line :: rest =>
    match tuple2_from_split line '=' "bad line" with
    | .ok kv =>
      (.hset REDIS_CFG_KEY_EXP_EXP_AB_PARAMS (kv.1 ++ ":" ++ AbType.display t) kv.2
        :: (handle_ab_params t rest).1,
       (handle_ab_params t rest).2)
    | .error _ => handle_ab_params t rest

/-- The accumulation loop of `handle_action_choice`: parse every line with
`?` (the first failure aborts), pushing each pair onto `items` in line
order. -/
def collect_choice_items : List String → Except String (List (String × String))
  | [] => .ok []
  | line :: rest =>
    match tuple2_from_split line '=' "bad line" with
    | .error m => .error m
    | .ok kv =>
      match collect_choice_items rest with
      | .error m => .error m
      | .ok items => .ok (kv :: items)

/-- `handle_action_choice` of `main.rs`: collect all records first, then
issue one `hset_multiple` into the default-choice map, guarded by
`!items.is_empty()`. -/
def handle_action_choice (lines : List String) : List WriteEvent × Outcome :=
  match collect_choice_items lines with
  | .error m => ([], .err m)
  | .ok items =>
    if items.isEmpty then ([], .ok)
    else ([.hsetMultiple REDIS_KEY_EXP_ADID_DEFALUT_CHOICE items], .ok)

/-- `handle_action_score` of `main.rs`: per line, parse `key=value` with `?`,
decode the value as `Vec<f32>` with `?`, then `hset_multiple` the enumerated
entries into the per-line map `"<scores namespace>:<key>"` — issued even when
the decoded vector is empty (the source has no emptiness guard here). -/
def handle_action_score : List String → List WriteEvent × Outcome
  | [] => ([], .ok)
  | line :: rest =>
    match tuple2_from_split line '=' "bad line" with
    | .error m => ([], .err m)
    | .ok kv =>
      match decodeF32Array kv.2 with
      | none => ([], .err "invalid json")
      | some vs =>
        (.hsetMultiple (REDIS_CFG_KEY_EXP_VERSION_AD_ID_SCORES ++ ":" ++ kv.1)
            (enumItems 0 vs)
          :: (handle_action_score rest).1,
         (handle_action_score rest).2)

/-- `handle_action_value` of `main.rs`: read the whole file into one string,
parse it as a single `key=value` record, decode the value as `Vec<f32>`, and
`hset` each element individually into the fixed target-CTR map, field
`"<index>"`, value `"<element>"`.  The record's key is not used. -/
def handle_action_value (content : String) : List WriteEvent × Outcome :=
  match tuple2_from_split content '=' "bad line" with
  | .error m => ([], .err m)
  | .ok kv =>
    match decodeF32Array kv.2 with
    | none => ([], .err "invalid json")
    | some vs =>
      ((enumItems 0 vs).map
        (fun it => .hset REDIS_CFG_KEY_EXP_TARGET_CTR_ACTION it.1 it.2),
       .ok)

/-- `handle_range_signal` of `main.rs`: the body is `todo!()`, which panics
with "not yet implemented" before any file or store access; the arguments
are unused. -/
def handle_range_signal (_content : String) (_t : SignalType) :
    List WriteEvent × Outcome :=
  ([], .panicked "not yet implemented")

/-- The subcommand enumeration (`Command` in `main.rs`). -/
inductive CommandArg
  | abParams (t : AbType)
  | actionChoice
  | actionScore
  | actionValue
  | rangeSignal (t : SignalType)
deriving DecidableEq

/-- Strip one trailing carriage return, as `BufRead::lines` does for a line
terminated by `"\r\n"`. -/
def stripCRList (l : List Char) : List Char :=
  if l.getLast? = some '\r' then l.dropLast else l

/-- The lines of a file's content under `BufRead::lines` semantics: split on
`'\n'`, a trailing newline produces no final empty line, and a `'\r'` that
preceded a `'\n'` is stripped (a final line without a newline keeps a
trailing `'\r'`).  A trailing newline shows up as an empty last piece of the
split, which is dropped. -/
def rustLines (s : String) : List String :=
  if s.data = [] then []
  else
    let parts := splitCh '\n' s.data
    if parts.getLast? = some [] then
      (parts.dropLast).map (fun l => String.mk (stripCRList l))
    else
      (parts.dropLast).map (fun l => String.mk (stripCRList l)) ++
        [String.mk (parts.getLastD [])]

example : rustLines "a=1\nb=2\n" = ["a=1", "b=2"] := by rfl
example : rustLines "a=1\r\nb=2" = ["a=1", "b=2"] := by rfl
example : rustLines "" = [] := by rfl
example : rustLines "\n" = [""] := by rfl

/-- The dispatch in `main`: every subcommand's write trace is a pure function
of the subcommand (with its mode argument) and the input file's content. -/
def runCommand : CommandArg → String → List WriteEvent × Outcome
  | .abParams t, content => handle_ab_params t (rustLines content)
  | .actionChoice, content => handle_action_choice (rustLines content)
  | .actionScore, content => handle_action_score (rustLines content)
  | .actionValue, content => handle_action_value content
  | .rangeSignal t, content => handle_range_signal content t

/-- The write the AB-params loop issues for one line, if any: `some` of the
`hset` for a line that parses, `none` for a malformed line. -/
def abLineEvent (t : AbType) (l : String) : Option WriteEvent :=
  match tuple2_from_split l '=' "bad line" with
  | .ok kv =>
    some (.hset REDIS_CFG_KEY_EXP_EXP_AB_PARAMS (kv.1 ++ ":" ++ AbType.display t) kv.2)
  | .error _ => none

/-- An error result of `tuple2_from_split` always carries the caller's
message. -/
theorem tuple2_from_split_error_eq (v : String) (p : Char) (msg m : String)
    (h : tuple2_from_split v p msg = .error m) : m = msg := by
  unfold tuple2_from_split at h
  rcases hL : splitCh p v.data with _ | ⟨a, _ | ⟨b, _ | _⟩⟩ <;> rw [hL] at h <;>
    simp at h <;> exact h.symm

/-- If some line of the file fails the split, the accumulation loop of
`handle_action_choice` propagates the error. -/
theorem collect_choice_items_error (lines : List String)
    (h : ∃ l ∈ lines, tuple2_from_split l '=' "bad line" = .error "bad line") :
    collect_choice_items lines = .error "bad line" := by
  induction lines with
  | nil => simp at h
  | cons l rest ih =>
    rcases h with ⟨l', hl', herr⟩
    rw [List.mem_cons] at hl'
    cases hp : tuple2_from_split l '=' "bad line" with
    | error m =>
      have := tuple2_from_split_error_eq l '=' "bad line" m hp
      subst this
      simp [collect_choice_items, hp]
    | ok kv =>
      rcases hl' with rfl | hl'
      · rw [hp] at herr; cases herr
      · simp [collect_choice_items, hp, ih ⟨l', hl', herr⟩]

/-- C2: the AB-params loader never aborts (its outcome is `ok` for every
file), and its write trace is exactly the per-line `hset` of every line that
parses, in line order — malformed lines contribute nothing. -/
theorem ab_params_writes_valid_skips_malformed (t : AbType) (lines : List String) :
    (handle_ab_params t lines).2 = .ok ∧
    (handle_ab_params t lines).1 = lines.filterMap (abLineEvent t) := by
  induction lines with
  | nil => simp [handle_ab_params]
  | cons l rest ih =>
    cases hp : tuple2_from_split l '=' "bad line" with
    | ok kv =>
      refine ⟨?_, ?_⟩ <;>
        simp [handle_ab_params, hp, abLineEvent, ih.1, ih.2, List.filterMap_cons]
    | error m =>
      refine ⟨?_, ?_⟩ <;>
        simp [handle_ab_params, hp, abLineEvent, ih.1, ih.2, List.filterMap_cons]

/-- C3: if any line of the file is malformed, the Action-Choice loader
aborts with the parse error and issues no write at all: the single bulk
write only happens after every line has parsed. -/
theorem action_choice_aborts_on_malformed (lines : List String)
    (h : ∃ l ∈ lines, tuple2_from_split l '=' "bad line" = .error "bad line") :
    handle_action_choice lines = ([], .err "bad line") := by
  simp [handle_action_choice, collect_choice_items_error lines h]

/-- C3 witness: a valid line followed by a malformed one still yields an
abort with zero writes. -/
theorem action_choice_aborts_on_malformed_witness :
    handle_action_choice ["c=d", "ab"] = ([], .err "bad line") :=
  action_choice_aborts_on_malformed ["c=d", "ab"]
    ⟨"ab", by simp, rfl⟩

/-- C4 counterexample: on the file line `k=[]` (a valid record whose JSON
array is empty) the Action-Score loader does issue a bulk write — with an
empty entry list — so its write trace is not empty. -/
theorem action_score_empty_array_write_cex :
    handle_action_score ["k=[]"] =
      ([.hsetMultiple (REDIS_CFG_KEY_EXP_VERSION_AD_ID_SCORES ++ ":" ++ "k") []],
       .ok) ∧
    (handle_action_score ["k=[]"]).1 ≠ [] := by
  exact ⟨rfl, by decide⟩

/-- C4 (amended): Action-Choice with zero accumulated records performs no
write, while Action-Score issues its per-line bulk write unconditionally, so
a line whose JSON array is empty produces a bulk write with an empty entry
sequence. -/
theorem empty_write_policy
    (lines : List String) (l k v : String) (rest : List String)
    (hc : collect_choice_items lines = .ok [])
    (hp : tuple2_from_split l '=' "bad line" = .ok (k, v))
    (hd : decodeF32Array v = some []) :
    handle_action_choice lines = ([], .ok) ∧
    handle_action_score (l :: rest) =
      (.hsetMultiple (REDIS_CFG_KEY_EXP_VERSION_AD_ID_SCORES ++ ":" ++ k) []
        :: (handle_action_score rest).1,
       (handle_action_score rest).2) := by
  constructor
  · simp [handle_action_choice, hc]
  · simp [handle_action_score, hp, hd, enumItems]

/-- C4 witness: the empty file gives Action-Choice zero records and no
write; the line `k=[]` gives Action-Score an empty-entry bulk write. -/
theorem empty_write_policy_witness :
    handle_action_choice [] = ([], .ok) ∧
    handle_action_score ["k=[]"] =
      (.hsetMultiple (REDIS_CFG_KEY_EXP_VERSION_AD_ID_SCORES ++ ":" ++ "k") []
        :: (handle_action_score []).1,
       (handle_action_score []).2) :=
  empty_write_policy [] "k=[]" "k" "[]" [] rfl rfl rfl

/-- `enumItems` starting at `i` is `enumFrom i` with both components
stringified. -/
theorem enumItems_eq_enumFrom (i : Nat) (vs : List String) :
    enumItems i vs = (vs.enumFrom i).map (fun p => (toString p.1, p.2)) := by
  induction vs generalizing i with
  | nil => simp [enumItems]
  | cons v vs ih => simp [enumItems, List.enumFrom, ih]

/-- Per-line write structure of the Action-Score loader, at the token level
of the model: a line that parses as `key=value` with a valid JSON
number-array value produces exactly one bulk write, to the per-line map
`"<scores namespace>:<key>"`, whose entries are, in array order, the
stringified zero-based index paired with the element's token.  The entry
values of the program are `format!("\x7b\x7d", val)` of the parsed `f32`,
which this model renders as the literal token (see `decodeF32Array`), so
only the structural part — one write per line, map name, index strings,
order, entry count — is faithful on all inputs. -/
theorem action_score_line_write_structure (l : String) (rest : List String) (k v : String)
    (vs : List String)
    (hp : tuple2_from_split l '=' "bad line" = .ok (k, v))
    (hd : decodeF32Array v = some vs) :
    handle_action_score (l :: rest) =
      (.hsetMultiple (REDIS_CFG_KEY_EXP_VERSION_AD_ID_SCORES ++ ":" ++ k)
          ((vs.enumFrom 0).map (fun p => (toString p.1, p.2)))
        :: (handle_action_score rest).1,
       (handle_action_score rest).2) ∧
    REDIS_CFG_KEY_EXP_VERSION_AD_ID_SCORES = "expversion:score:default" := by
  refine ⟨?_, rfl⟩
  simp [handle_action_score, hp, hd, enumItems_eq_enumFrom 0 vs]

/-- Concrete instance of `action_score_line_write_structure`: the line
`k=[1,2]` writes the entries `("0", "1")` and `("1", "2")` into the map
`expversion:score:default:k` (for these canonical integer literals the
token coincides with the program's written string). -/
theorem action_score_line_write_structure_example :
    handle_action_score ["k=[1,2]"] =
      (.hsetMultiple (REDIS_CFG_KEY_EXP_VERSION_AD_ID_SCORES ++ ":" ++ "k")
          (((["1", "2"] : List String).enumFrom 0).map (fun p => (toString p.1, p.2)))
        :: (handle_action_score []).1,
       (handle_action_score []).2) ∧
    REDIS_CFG_KEY_EXP_VERSION_AD_ID_SCORES = "expversion:score:default" :=
  action_score_line_write_structure "k=[1,2]" [] "k" "[1,2]" ["1", "2"] rfl rfl

/-- C6: on the whole-file content `seg1=[0.1,0.2,0.3]` the Action-Value
loader issues exactly three single-field writes, in index order, into the
fixed target-CTR map. -/
theorem action_value_concrete :
    handle_action_value "seg1=[0.1,0.2,0.3]" =
      ([.hset "cfg:exp:action:targetctr:default" "0" "0.1",
        .hset "cfg:exp:action:targetctr:default" "1" "0.2",
        .hset "cfg:exp:action:targetctr:default" "2" "0.3"], .ok) := by
  rfl

/-- C7: an AB-params line that parses as `(key, value)` is written
immediately as a single-field `hset` into the fixed map `cfg:exp:ab`, field
`"<key>:<t>"` with `t` the lowercased kind tag, value the raw value string;
subsequent lines only append after it. -/
theorem ab_params_per_line_field (t : AbType) (l : String) (rest : List String)
    (k v : String)
    (hp : tuple2_from_split l '=' "bad line" = .ok (k, v)) :
    handle_ab_params t (l :: rest) =
      (.hset REDIS_CFG_KEY_EXP_EXP_AB_PARAMS (k ++ ":" ++ AbType.display t) v
        :: (handle_ab_params t rest).1,
       (handle_ab_params t rest).2) ∧
    REDIS_CFG_KEY_EXP_EXP_AB_PARAMS = "cfg:exp:ab" ∧
    AbType.display .Fill = "fill" ∧
    AbType.display .Show = "show" ∧
    AbType.display .Click = "click" := by
  refine ⟨?_, rfl, rfl, rfl, rfl⟩
  simp [handle_ab_params, hp]

/-- C7 witness: the line `k=v` under the `fill` kind writes field `k:fill`
with value `v`. -/
theorem ab_params_per_line_field_witness :
    handle_ab_params .Fill ["k=v"] =
      (.hset REDIS_CFG_KEY_EXP_EXP_AB_PARAMS ("k" ++ ":" ++ AbType.display .Fill) "v"
        :: (handle_ab_params .Fill []).1,
       (handle_ab_params .Fill []).2) ∧
    REDIS_CFG_KEY_EXP_EXP_AB_PARAMS = "cfg:exp:ab" ∧
    AbType.display .Fill = "fill" ∧
    AbType.display .Show = "show" ∧
    AbType.display .Click = "click" :=
  ab_params_per_line_field .Fill "k=v" [] "k" "v" rfl

/-- C8: for every file content and every signal-type tag, the Range-Signal
handler ends in the distinguishable `panicked "not yet implemented"` state
of the `todo!()` stub, issues no write, and does not depend on the file at
all (no file access happens before the panic). -/
theorem range_signal_stub (content other : String) (t t' : SignalType) :
    handle_range_signal content t = ([], .panicked "not yet implemented") ∧
    handle_range_signal content t = handle_range_signal other t' :=
  ⟨rfl, rfl⟩

/-- If a blank line occurs in the file, the Action-Score loader aborts. -/
theorem action_score_err_of_blank (lines : List String) (h : "" ∈ lines) :
    ∃ m, (handle_action_score lines).2 = .err m := by
  induction lines with
  | nil => simp at h
  | cons l rest ih =>
    rw [List.mem_cons] at h
    rcases h with rfl | h
    · exact ⟨"bad line", rfl⟩
    · cases hp : tuple2_from_split l '=' "bad line" with
      | error m => exact ⟨m, by simp [handle_action_score, hp]⟩
      | ok kv =>
        cases hd : decodeF32Array kv.2 with
        | none => exact ⟨"invalid json", by simp [handle_action_score, hp, hd]⟩
        | some vs =>
          rcases ih h with ⟨m, hm⟩
          exact ⟨m, by simp [handle_action_score, hp, hd, hm]⟩

/-- In the AB-params loader a blank line is a no-op: removing it changes
nothing. -/
theorem ab_params_skip_blank (t : AbType) (pre post : List String) :
    handle_ab_params t (pre ++ "" :: post) = handle_ab_params t (pre ++ post) := by
  induction pre with
  | nil => rfl
  | cons l pre ih =>
    cases hp : tuple2_from_split l '=' "bad line" with
    | ok kv => simp [handle_ab_params, hp, ih]
    | error m => simp [handle_ab_params, hp, ih]

/-- C9: a blank line parses to an error (it has no `=`), so it aborts the
Action-Choice and Action-Score loaders wherever it occurs in the file, while
the AB-Params loader silently skips it. -/
theorem blank_line_loader_policy :
    (∀ lines : List String, "" ∈ lines → ∃ m, (handle_action_choice lines).2 = .err m) ∧
    (∀ lines : List String, "" ∈ lines → ∃ m, (handle_action_score lines).2 = .err m) ∧
    (∀ (t : AbType) (pre post : List String),
      handle_ab_params t (pre ++ "" :: post) = handle_ab_params t (pre ++ post)) := by
  refine ⟨?_, action_score_err_of_blank, ab_params_skip_blank⟩
  intro lines h
  exact ⟨"bad line",
    by simp [handle_action_choice, collect_choice_items_error lines ⟨"", h, rfl⟩]⟩

/-- C9 witness: a blank second line aborts Action-Choice and Action-Score,
and is skipped by AB-Params. -/
theorem blank_line_loader_policy_witness :
    (∃ m, (handle_action_choice ["a=1", ""]).2 = .err m) ∧
    (∃ m, (handle_action_score ["a=[1]", ""]).2 = .err m) ∧
    handle_ab_params .Show (["a=1"] ++ "" :: ["b=2"]) =
      handle_ab_params .Show (["a=1"] ++ ["b=2"]) :=
  ⟨blank_line_loader_policy.1 ["a=1", ""] (by simp),
   blank_line_loader_policy.2.1 ["a=[1]", ""] (by simp),
   blank_line_loader_policy.2.2 .Show ["a=1"] ["b=2"]⟩

/-- C10: for a fixed subcommand (with its mode arguments), the issued write
sequence and outcome are a function of the input file's content alone: two
runs over equal content are identical.  The embedding makes the write path a
pure function of exactly these inputs, which is faithful to the source —
given the claims' assumption that reads and writes succeed, nothing else
(clock, environment, store replies) flows into the writes. -/
theorem write_trace_deterministic (cmd : CommandArg) (c1 c2 : String)
    (h : c1 = c2) : runCommand cmd c1 = runCommand cmd c2 := by
  rw [h]

/-- C10 witness: two runs of `action-choice` over the same two-line file
issue the same writes. -/
theorem write_trace_deterministic_witness :
    runCommand .actionChoice "a=1\nb=2\n" = runCommand .actionChoice "a=1\nb=2\n" :=
  write_trace_deterministic .actionChoice "a=1\nb=2\n" "a=1\nb=2\n" rfl
